import Mathlib

/-!
# Mastermind rules engine (`game.go`)

A shallow embedding of the `mastermind` package: the `Game` record, the
`SubmitGuess` operation with its validation, scoring and state update, the
`NewGame` constructor, and theorems about them.

Modelling conventions.

* `GameRow` (`[]int`) is a `List Int`; `GameState` (`byte`) is a `Nat` with the
  three constants numbered as by `iota`.
* The pin counters are Go `int`s that only ever count up from zero, at most
  once per pair of positions, so they are modelled as `Nat`.
* A Go method that mutates its receiver and returns `(GuessResult, error)`
  becomes a function to an `Outcome` holding the receiver after the call, the
  returned result and the returned error (`none` for `nil`).
* Every slice access is an explicit lookup; an index out of range is a run-time
  fault, modelled as the outer `Option` being `none`.
* A loop `for i := 0; i < n; i++` is a recursion on the pair (current index,
  iterations left), started at `(0, n)`.
* The random source read by `NewGame` is a list of draws, one per call of
  `rand.Int`; the unbounded rejection loop is a recursion on that list.
-/

namespace Mastermind

/-- A row in the game: `type GameRow []int`. -/
abbrev GameRow := List Int

/-- The state of a game: `type GameState byte`. -/
abbrev GameState := Nat

/-- An in-progress game (`iota` value 0). -/
def StateActive : GameState := 0

/-- A complete game that was successfully completed (`iota` value 1). -/
def StateWin : GameState := 1

/-- A complete game that was not successfully completed (`iota` value 2). -/
def StateLost : GameState := 2

/-- The two error values of the package. -/
inductive GameError where
  | ErrGameNotActive
  | ErrBadGuess
deriving DecidableEq, Repr

/-- The `Game` struct. -/
structure Game where
  Solution : GameRow
  Guesses : List GameRow
  State : GameState
  maxColors : Int
  maxGuesses : Int
deriving DecidableEq, Repr

/-- The `GuessResult` struct; its zero value is `GuessResult{}`. -/
structure GuessResult where
  NumCorrectPins : Nat := 0
  NumPartialPins : Nat := 0
  State : GameState := 0
deriving DecidableEq, Repr

/-- What a call of `SubmitGuess` leaves behind: the receiver after the call and
the two returned values. -/
structure Outcome where
  game : Game
  result : GuessResult
  err : Option GameError
deriving DecidableEq, Repr

/-- The validation loop `for i := 0; i < len(g); i++ { if g[i] >= maxColors
{ return bad } }`, at index `i` with `k` iterations left. `some true`: the loop
ran to its end; `some false`: it returned early with `ErrBadGuess`. -/
def checkColors (g : GameRow) (maxColors : Int) : Nat → Nat → Option Bool
  | _, 0 => some true
  | i, k + 1 =>
    match g[i]? with
    | none => none
    | some v => if v ≥ maxColors then some false else checkColors g maxColors (i + 1) k

/-- The inner scoring loop `for j := 0; j < len(Solution); j++`, for guess
position `i`, at index `j` with `k` iterations left; `np` is `NumPartialPins`.
The `continue` that ends its body goes on with the next `j`. -/
def innerLoop (g sol : GameRow) (i : Nat) : Nat → Nat → Nat → List Bool → Option (Nat × List Bool)
  | _, 0, np, used => some (np, used)
  | j, k + 1, np, used =>
    match g[i]?, sol[j]? with
    | some gi, some sj =>
      if gi = sj then
        match used[j]? with
        | none => none
        | some uj =>
          if uj = false then innerLoop g sol i (j + 1) k (np + 1) (used.set j true)
          else innerLoop g sol i (j + 1) k np used
      else innerLoop g sol i (j + 1) k np used
    | _, _ => none

/-- The outer scoring loop `for i := 0; i < len(Solution); i++`, at index `i`
with `k` iterations left; `nc` is `NumCorrectPins`, `np` is `NumPartialPins`. -/
def scoreLoop (g sol : GameRow) : Nat → Nat → Nat → Nat → List Bool → Option (Nat × Nat × List Bool)
  | _, 0, nc, np, used => some (nc, np, used)
  | i, k + 1, nc, np, used =>
    match g[i]?, sol[i]? with
    | some gi, some si =>
      if gi = si then
        if i < used.length then scoreLoop g sol (i + 1) k (nc + 1) np (used.set i true)
        else none
      else
        match innerLoop g sol i 0 sol.length np used with
        | none => none
        | some (np1, used1) => scoreLoop g sol (i + 1) k nc np1 used1
    | _, _ => none

/-- The state update that follows scoring: the win test, then the guess-count
test, each an `if` on its own. -/
def updateState (game : Game) (nc : Nat) : Game :=
  let game1 := if nc = game.Solution.length then { game with State := StateWin } else game
  if (game1.Guesses.length : Int) ≥ game1.maxGuesses then { game1 with State := StateLost }
  else game1

/-- The method `func (game *Game) SubmitGuess(g GameRow) (GuessResult, error)`:
the state test, the length test, the colour loop, the append, scoring and the
state update, in the order of the source. -/
def SubmitGuess (game : Game) (g : GameRow) : Option Outcome :=
  if game.State ≠ StateActive then
    some ⟨game, {}, some GameError.ErrGameNotActive⟩
  else if g.length ≠ game.Solution.length then
    some ⟨game, {}, some GameError.ErrBadGuess⟩
  else
    match checkColors g game.maxColors 0 g.length with
    | none => none
    | some false => some ⟨game, {}, some GameError.ErrBadGuess⟩
    | some true =>
      let game1 := { game with Guesses := game.Guesses ++ [g] }
      match scoreLoop g game1.Solution 0 game1.Solution.length 0 0
          (List.replicate game1.Solution.length false) with
      | none => none
      | some (nc, np, _) =>
        let game2 := updateState game1 nc
        some ⟨game2, ⟨nc, np, game2.State⟩, none⟩

/-- Number of positions at which two rows hold the same value. -/
def exactCount (g sol : GameRow) : Nat :=
  (g.zip sol).countP (fun p => decide (p.1 = p.2))

/-- Number of guess positions, among those still to be scored, whose value
differs from the solution at that position, occurs in the solution, and has not
been seen at an earlier guess position (`seen` is the guess so far). -/
def misplacedCount (sol : GameRow) : List Int → List Int → List Int → Nat
  | seen, a :: gs, b :: ss =>
    (if a ≠ b ∧ a ∈ sol ∧ a ∉ seen then 1 else 0) + misplacedCount sol (seen ++ [a]) gs ss
  | _, _, _ => 0

/-- Size of the multiset intersection of two rows: the sum over every colour
`c` of `min (occurrences of c in g) (occurrences of c in sol)`. -/
def multisetIntersectionSize (g sol : GameRow) : Nat :=
  ((g ++ sol).dedup.map (fun c => min (g.count c) (sol.count c))).sum

/-- A sequence of `SubmitGuess` calls on one game, each call made on the game
the previous call left (a call that returns an error leaves it as it was). -/
def SubmitGuesses : Game → List GameRow → Option Game
  | game, [] => some game
  | game, g :: gs =>
    match SubmitGuess game g with
    | none => none
    | some o => SubmitGuesses o.game gs

/-- Every guess of the sequence, submitted in turn, is accepted (no error) and
is not a win (its exact-match count differs from the solution length). -/
def nonWinningRun : Game → List GameRow → Bool
  | _, [] => true
  | game, g :: gs =>
    match SubmitGuess game g with
    | none => false
    | some o =>
      o.err.isNone && decide (o.result.NumCorrectPins ≠ game.Solution.length)
        && nonWinningRun o.game gs

/-- Reference scan of spec section 4.2 for one guess value: solution positions
`j` ascending; the first `j` whose value equals the guess value and that is not
yet used counts one misplaced pin, is marked used, and ends the scan. -/
def refScan (gi : Int) (sol : GameRow) : Nat → Nat → Nat → List Bool → Nat × List Bool
  | _, 0, np, used => (np, used)
  | j, k + 1, np, used =>
    if sol[j]? = some gi ∧ used[j]? = some false then (np + 1, used.set j true)
    else refScan gi sol (j + 1) k np used

/-- Reference scoring of spec section 4.2: guess positions `i` ascending; an
exact match at `i` counts one exact pin and marks solution position `i` used;
otherwise the reference scan runs for that guess position. -/
def refScoreLoop (g sol : GameRow) : Nat → Nat → Nat → Nat → List Bool → Nat × Nat × List Bool
  | _, 0, nc, np, used => (nc, np, used)
  | i, k + 1, nc, np, used =>
    match g[i]? with
    | none => (nc, np, used)
    | some gi =>
      if sol[i]? = some gi then refScoreLoop g sol (i + 1) k (nc + 1) np (used.set i true)
      else
        let r := refScan gi sol 0 sol.length np used
        refScoreLoop g sol (i + 1) k nc r.1 r.2

/-- The pair (exact pins, misplaced pins) of the reference algorithm of spec
section 4.2, with the used markers sized to the solution and all unset. -/
def referenceScore (g sol : GameRow) : Nat × Nat :=
  let r := refScoreLoop g sol 0 g.length 0 0 (List.replicate sol.length false)
  (r.1, r.2.1)

/-- Number of positions `i` with `g[i] != sol[i]` and `g[i]` occurring somewhere
in `sol`. -/
def misplacedPositions (g sol : GameRow) : Nat :=
  (g.zip sol).countP (fun p => decide (p.1 ≠ p.2 ∧ p.1 ∈ sol))

/-- Number of colours common to two rows: the distinct values of `g` that occur
in `sol`. -/
def commonColours (g sol : GameRow) : Nat :=
  (g.dedup.filter (fun c => decide (c ∈ sol))).length

/-- The bounds that the guess history keeps along any run: its length is at
most `maxGuesses`, and strictly less while the game is Active. -/
def historyBounded (game : Game) : Prop :=
  (game.Guesses.length : Int) ≤ game.maxGuesses ∧
  (game.State = StateActive → (game.Guesses.length : Int) < game.maxGuesses)

/-- The rejection loop `for { ... }` of `NewGame`. The random source is the
list of values that successive calls `rand.Int(rand.Reader, maxColors)` return;
each draw is looked up in `usedColours` and taken, marked and returned with the
draws left over, or rejected for the next draw. `none`: the draws ran out before
the loop ended, or a lookup was out of range. -/
def drawColor (allowDuplicates : Bool) (usedColours : List Bool) :
    List Nat → Option (Nat × List Bool × List Nat)
  | [] => none
  | n :: draws =>
    match usedColours[n]? with
    | none => none
    | some u =>
      if allowDuplicates || !u then some (n, usedColours.set n true, draws)
      else drawColor allowDuplicates usedColours draws

/-- The generation loop `for i := 0; i < holeCount; i++` of `NewGame`, at index
`i` with `k` iterations left: one colour is drawn and stored at `solution[i]`. -/
def fillSolution (allowDuplicates : Bool) :
    Nat → Nat → List Int → List Bool → List Nat → Option (List Int)
  | _, 0, solution, _, _ => some solution
  | i, k + 1, solution, usedColours, draws =>
    match drawColor allowDuplicates usedColours draws with
    | none => none
    | some (color, used1, rest) =>
      if i < solution.length then
        fillSolution allowDuplicates (i + 1) k (solution.set i (color : Int)) used1 rest
      else none

/-- The constructor `func NewGame() *Game`, over an injected random source:
four colours, four holes, no duplicates, eight guesses. -/
def NewGame (draws : List Nat) : Option Game :=
  let maxColors : Nat := 4
  let holeCount : Nat := 4
  let allowDuplicates : Bool := false
  match fillSolution allowDuplicates 0 holeCount (List.replicate holeCount 0)
      (List.replicate maxColors false) draws with
  | none => none
  | some solution => some ⟨solution, [], StateActive, (maxColors : Int), 8⟩

/-! ## Auxiliary facts about the loops -/

theorem checkColors_eq (g : GameRow) (mc : Int) :
    ∀ (k i : Nat), i + k = g.length →
      checkColors g mc i k = some (decide (∀ v ∈ g.drop i, v < mc)) := by
  intro k
  induction k with
  | zero =>
    intro i hi
    have : g.length ≤ i := by omega
    simp [checkColors, List.drop_eq_nil_of_le this]
  | succ k ih =>
    intro i hi
    have hlt : i < g.length := by omega
    have hd : g.drop i = g[i] :: g.drop (i + 1) := List.drop_eq_getElem_cons hlt
    have hrec := ih (i + 1) (by omega)
    have hall : (∀ v ∈ g.drop i, v < mc) ↔ (g[i] < mc ∧ ∀ v ∈ g.drop (i + 1), v < mc) := by
      rw [hd]; exact List.forall_mem_cons
    simp only [checkColors, List.getElem?_eq_getElem hlt, hrec, decide_eq_decide.mpr hall]
    by_cases hge : g[i] ≥ mc
    · have : ¬ g[i] < mc := by omega
      simp [hge, this]
    · have hlt2 : g[i] < mc := by omega
      simp [hge, hlt2]

theorem getElem?_append_length_cons {α : Type} (pre : List α) (a : α) (rest : List α) :
    (pre ++ a :: rest)[pre.length]? = some a := by
  induction pre with
  | nil => simp
  | cons p pre ih => simpa using ih

theorem set_append_length_cons {α : Type} (pre : List α) (a b : α) (rest : List α) :
    (pre ++ a :: rest).set pre.length b = pre ++ b :: rest := by
  induction pre with
  | nil => rfl
  | cons p pre ih => simp

theorem innerLoop_eq (g sol : GameRow) (i : Nat) (v : Int) (hv : g[i]? = some v) :
    ∀ (ss : List Int) (bs : List Bool) (pre : List Int) (upre : List Bool) (np : Nat),
      sol = pre ++ ss → pre.length = upre.length → ss.length = bs.length →
      innerLoop g sol i pre.length ss.length np (upre ++ bs)
        = some (np + (ss.zip bs).countP (fun p => decide (v = p.1) && !p.2),
                upre ++ List.zipWith (fun s b => b || decide (v = s)) ss bs) := by
  intro ss
  induction ss with
  | nil =>
    intro bs pre upre np _ _ hb
    cases bs with
    | nil => simp [innerLoop]
    | cons b bs => simp at hb
  | cons s ss ih =>
    intro bs pre upre np hsol hpre hb
    cases bs with
    | nil => simp at hb
    | cons b bs =>
      have hb2 : ss.length = bs.length := by simpa using hb
      have hsj : sol[pre.length]? = some s := by
        rw [hsol]; exact getElem?_append_length_cons pre s ss
      have huj : (upre ++ b :: bs)[pre.length]? = some b := by
        rw [hpre]; exact getElem?_append_length_cons upre b bs
      have hsol2 : sol = (pre ++ [s]) ++ ss := by simp [hsol]
      have hpre2 : (pre ++ [s]).length = (upre ++ [true]).length := by simp [hpre]
      have hpre3 : (pre ++ [s]).length = (upre ++ [b]).length := by simp [hpre]
      have hlen : (pre ++ [s]).length = pre.length + 1 := by simp
      have hset : (upre ++ b :: bs).set pre.length true = (upre ++ [true]) ++ bs := by
        rw [hpre, set_append_length_cons]; simp
      have hcat : upre ++ b :: bs = (upre ++ [b]) ++ bs := by simp
      simp only [List.length_cons, innerLoop, hv, hsj, huj]
      by_cases hvs : v = s
      · cases b with
        | false =>
          simp only [hvs, if_true, hset]
          rw [← hlen, ih bs (pre ++ [s]) (upre ++ [true]) (np + 1) hsol2 hpre2 hb2]
          simp [hvs, Nat.add_assoc, Nat.add_comm]
        | true =>
          simp only [hvs, if_true, hcat]
          rw [← hlen]
          simp only [Bool.true_eq_false, if_false]
          rw [ih bs (pre ++ [s]) (upre ++ [true]) np hsol2 hpre2 hb2]
          simp [hvs]
      · simp only [hvs, if_false, hcat]
        rw [← hlen, ih bs (pre ++ [s]) (upre ++ [b]) np hsol2 hpre3 hb2]
        simp [hvs]

theorem innerLoop_full (g sol : GameRow) (i : Nat) (v : Int) (hv : g[i]? = some v)
    (np : Nat) (used : List Bool) (hu : sol.length = used.length) :
    innerLoop g sol i 0 sol.length np used
      = some (np + (sol.zip used).countP (fun p => decide (v = p.1) && !p.2),
              List.zipWith (fun s b => b || decide (v = s)) sol used) := by
  have h := innerLoop_eq g sol i v hv sol used [] [] np rfl rfl hu
  simpa using h

theorem zipWith_map_self {α β γ : Type} (f : α → β → γ) (h : α → β) (l : List α) :
    List.zipWith f l (l.map h) = l.map (fun a => f a (h a)) := by
  induction l with
  | nil => rfl
  | cons a l ih => simp [ih]

theorem countP_zip_map_self {α β : Type} (q : α × β → Bool) (h : α → β) (l : List α) :
    (l.zip (l.map h)).countP q = l.countP (fun a => q (a, h a)) := by
  induction l with
  | nil => rfl
  | cons a l ih => simp [List.countP_cons, ih]

theorem countP_unseen_nodup (sol : GameRow) (hs : sol.Nodup) (seen : List Int) (v : Int) :
    sol.countP (fun s => decide (v = s) && !decide (s ∈ seen))
      = if v ∈ sol ∧ v ∉ seen then 1 else 0 := by
  by_cases hseen : v ∈ seen
  · have : sol.countP (fun s => decide (v = s) && !decide (s ∈ seen)) = 0 := by
      rw [List.countP_eq_zero]
      intro s _
      by_cases hvs : v = s
      · subst hvs; simp [hseen]
      · simp [hvs]
    simp [this, hseen]
  · have : sol.countP (fun s => decide (v = s) && !decide (s ∈ seen)) = sol.count v := by
      rw [List.count]
      apply List.countP_congr
      intro s _
      by_cases hvs : v = s
      · subst hvs; simp [hseen]
      · have : ¬ s = v := fun h => hvs h.symm
        simp [hvs, this]
    rw [this, List.count_eq_of_nodup hs]
    simp [hseen]

theorem map_set_nodup (spre srest : List Int) (a : Int) (hs : (spre ++ a :: srest).Nodup)
    (f : Int → Bool) :
    ((spre ++ a :: srest).map f).set spre.length true
      = (spre ++ a :: srest).map (fun s => f s || decide (a = s)) := by
  have hnot : a ∉ spre ∧ a ∉ srest := by
    have h1 := List.nodup_append.mp hs
    have h2 := List.nodup_cons.mp h1.2.1
    refine ⟨fun h => ?_, h2.1⟩
    exact h1.2.2 h (List.mem_cons_self a srest)
  have e1 : spre.map (fun s => f s || decide (a = s)) = spre.map f := by
    apply List.map_congr_left
    intro s hsm
    have : ¬ a = s := fun h => hnot.1 (h ▸ hsm)
    simp [this]
  have e2 : srest.map (fun s => f s || decide (a = s)) = srest.map f := by
    apply List.map_congr_left
    intro s hsm
    have : ¬ a = s := fun h => hnot.2 (h ▸ hsm)
    simp [this]
  have hl : spre.length = (spre.map f).length := by simp
  rw [List.map_append, List.map_cons, List.map_append, List.map_cons, e1, e2]
  conv => lhs; rw [hl]
  rw [set_append_length_cons]
  simp

theorem scoreLoop_nodup (g sol : GameRow) (hs : sol.Nodup) :
    ∀ (grest srest gpre spre : List Int) (nc np : Nat),
      g = gpre ++ grest → sol = spre ++ srest → gpre.length = spre.length →
      grest.length = srest.length →
      scoreLoop g sol gpre.length grest.length nc np (sol.map (fun s => decide (s ∈ gpre)))
        = some (nc + exactCount grest srest, np + misplacedCount sol gpre grest srest,
                sol.map (fun s => decide (s ∈ g))) := by
  intro grest
  induction grest with
  | nil =>
    intro srest gpre spre nc np hg _ _ hl
    cases srest with
    | nil => simp [scoreLoop, exactCount, misplacedCount, hg]
    | cons b srest => simp at hl
  | cons a grest ih =>
    intro srest gpre spre nc np hg hsol hpre hl
    cases srest with
    | nil => simp at hl
    | cons b srest =>
      have hl2 : grest.length = srest.length := by simpa using hl
      have hgi : g[gpre.length]? = some a := by
        rw [hg]; exact getElem?_append_length_cons gpre a grest
      have hsi : sol[gpre.length]? = some b := by
        rw [hsol, hpre]; exact getElem?_append_length_cons spre b srest
      have hg2 : g = (gpre ++ [a]) ++ grest := by simp [hg]
      have hsol2 : sol = (spre ++ [b]) ++ srest := by simp [hsol]
      have hpre2 : (gpre ++ [a]).length = (spre ++ [b]).length := by simp [hpre]
      have hlen : (gpre ++ [a]).length = gpre.length + 1 := by simp
      have hseen : (fun s => decide (s ∈ gpre) || decide (a = s))
          = (fun s => decide (s ∈ gpre ++ [a])) := by
        funext s
        by_cases h1 : s ∈ gpre <;> by_cases h2 : a = s <;> simp [h1, h2, eq_comm]
      have hrec := ih srest (gpre ++ [a]) (spre ++ [b])
      simp only [List.length_cons, scoreLoop, hgi, hsi]
      by_cases hab : a = b
      · subst hab
        have hlt : gpre.length < (sol.map (fun s => decide (s ∈ gpre))).length := by
          rw [List.length_map, hsol, hpre]; simp
        have hset : (sol.map (fun s => decide (s ∈ gpre))).set gpre.length true
            = sol.map (fun s => decide (s ∈ gpre ++ [a])) := by
          have hs2 : (spre ++ a :: srest).Nodup := by rw [← hsol]; exact hs
          have := map_set_nodup spre srest a hs2 (fun s => decide (s ∈ gpre))
          rw [hpre, hsol, this, hseen]
        rw [if_pos rfl, if_pos hlt, hset, ← hlen, hrec (nc + 1) np hg2 hsol2 hpre2 hl2]
        simp [exactCount, misplacedCount, List.countP_cons, Nat.add_assoc, Nat.add_comm]
      · have hu : sol.length = (sol.map (fun s => decide (s ∈ gpre))).length := by simp
        simp only [hab, if_false]
        rw [innerLoop_full g sol gpre.length a hgi np _ hu]
        simp only []
        rw [zipWith_map_self, countP_zip_map_self, hseen, countP_unseen_nodup sol hs, ← hlen,
          hrec nc _ hg2 hsol2 hpre2 hl2]
        simp [exactCount, misplacedCount, hab, List.countP_cons, Nat.add_assoc]

theorem exact_add_misplaced (sol : GameRow) :
    ∀ (grest srest seen : List Int), (seen ++ grest).Nodup → grest.length = srest.length →
      (∀ b ∈ srest, b ∈ sol) →
      exactCount grest srest + misplacedCount sol seen grest srest
        = grest.countP (fun a => decide (a ∈ sol)) := by
  intro grest
  induction grest with
  | nil => intro srest seen _ _ _; simp [exactCount, misplacedCount]
  | cons a gs ih =>
    intro srest seen hnd hl hsub
    cases srest with
    | nil => simp at hl
    | cons b ss =>
      have hl2 : gs.length = ss.length := by simpa using hl
      have hnd2 : ((seen ++ [a]) ++ gs).Nodup := by simpa using hnd
      have hsub2 : ∀ c ∈ ss, c ∈ sol := fun c hc => hsub c (List.mem_cons_of_mem b hc)
      have hb : b ∈ sol := hsub b (List.mem_cons_self b ss)
      have hns : a ∉ seen := by
        intro h
        exact (List.nodup_append.mp hnd).2.2 h (List.mem_cons_self a gs)
      have hrec := ih ss (seen ++ [a]) hnd2 hl2 hsub2
      have e1 : exactCount (a :: gs) (b :: ss) = (if a = b then 1 else 0) + exactCount gs ss := by
        by_cases hab : a = b <;> simp [exactCount, List.countP_cons, hab, Nat.add_comm]
      have e2 : (a :: gs).countP (fun a => decide (a ∈ sol))
          = (if a ∈ sol then 1 else 0) + gs.countP (fun a => decide (a ∈ sol)) := by
        by_cases ha : a ∈ sol <;> simp [List.countP_cons, ha, Nat.add_comm]
      rw [e1, e2, ← hrec]
      simp only [misplacedCount]
      by_cases hab : a = b
      · subst hab
        simp [hb]
        omega
      · by_cases ha : a ∈ sol
        · simp [hab, ha, hns]; omega
        · simp [hab, ha]

/-! ## Auxiliary facts about `SubmitGuess` -/

theorem updateState_frame (game : Game) (nc : Nat) :
    (updateState game nc).Solution = game.Solution ∧
    (updateState game nc).Guesses = game.Guesses ∧
    (updateState game nc).maxColors = game.maxColors ∧
    (updateState game nc).maxGuesses = game.maxGuesses := by
  unfold updateState
  by_cases h1 : nc = game.Solution.length <;>
    by_cases h2 : (game.Guesses.length : Int) ≥ game.maxGuesses <;> simp [h1, h2]

theorem updateState_nonwinning (game : Game) (nc : Nat) (hnc : nc ≠ game.Solution.length) :
    (updateState game nc).State
      = if (game.Guesses.length : Int) ≥ game.maxGuesses then StateLost else game.State := by
  unfold updateState
  by_cases h2 : (game.Guesses.length : Int) ≥ game.maxGuesses <;> simp [hnc, h2]

theorem SubmitGuess_accepted (game : Game) (g : GameRow) (o : Outcome)
    (h : SubmitGuess game g = some o) (he : o.err = none) :
    game.State = StateActive ∧ g.length = game.Solution.length ∧
    checkColors g game.maxColors 0 g.length = some true ∧
    (∃ used, scoreLoop g game.Solution 0 game.Solution.length 0 0
        (List.replicate game.Solution.length false)
        = some (o.result.NumCorrectPins, o.result.NumPartialPins, used)) ∧
    o.game = updateState { game with Guesses := game.Guesses ++ [g] } o.result.NumCorrectPins ∧
    o.result.State = o.game.State := by
  unfold SubmitGuess at h
  by_cases hA : game.State = StateActive
  · rw [if_neg (not_not.mpr hA)] at h
    by_cases hl : g.length = game.Solution.length
    · rw [if_neg (not_not.mpr hl)] at h
      cases hc : checkColors g game.maxColors 0 g.length with
      | none => rw [hc] at h; simp at h
      | some b =>
        rw [hc] at h
        cases b with
        | false =>
          simp only [Option.some.injEq] at h
          rw [← h] at he
          simp at he
        | true =>
          simp only at h
          cases hsc : scoreLoop g game.Solution 0 game.Solution.length 0 0
              (List.replicate game.Solution.length false) with
          | none => rw [hsc] at h; simp at h
          | some r =>
            obtain ⟨nc, np, used⟩ := r
            rw [hsc] at h
            simp only [Option.some.injEq] at h
            subst h
            exact ⟨hA, hl, rfl, ⟨used, rfl⟩, rfl, rfl⟩
    · rw [if_pos hl] at h
      simp only [Option.some.injEq] at h
      rw [← h] at he
      simp at he
  · rw [if_pos hA] at h
    simp only [Option.some.injEq] at h
    rw [← h] at he
    simp at he

theorem SubmitGuess_inactive (game : Game) (g : GameRow) (h : game.State ≠ StateActive) :
    SubmitGuess game g = some ⟨game, {}, some GameError.ErrGameNotActive⟩ := by
  unfold SubmitGuess
  simp [h]

theorem SubmitGuess_bad_length (game : Game) (g : GameRow) (hA : game.State = StateActive)
    (hl : g.length ≠ game.Solution.length) :
    SubmitGuess game g = some ⟨game, {}, some GameError.ErrBadGuess⟩ := by
  unfold SubmitGuess
  simp [hA, hl]

theorem SubmitGuess_bad_color (game : Game) (g : GameRow) (hA : game.State = StateActive)
    (hl : g.length = game.Solution.length) (hv : ∃ v ∈ g, v ≥ game.maxColors) :
    SubmitGuess game g = some ⟨game, {}, some GameError.ErrBadGuess⟩ := by
  have hc : checkColors g game.maxColors 0 g.length = some false := by
    rw [checkColors_eq g game.maxColors g.length 0 (by omega)]
    obtain ⟨v, hvm, hvge⟩ := hv
    simp only [List.drop_zero, Option.some.injEq, decide_eq_false_iff_not, not_forall]
    exact ⟨v, hvm, by omega⟩
  unfold SubmitGuess
  rw [if_neg (not_not.mpr hA), if_neg (not_not.mpr hl), hc]

theorem scoreLoop_self (sol : GameRow) :
    ∀ (rest pre : List Int) (nc np : Nat) (used : List Bool), sol = pre ++ rest →
      used.length = sol.length →
      ∃ used1, scoreLoop sol sol pre.length rest.length nc np used
        = some (nc + rest.length, np, used1) := by
  intro rest
  induction rest with
  | nil => intro pre nc np used _ _; exact ⟨used, by simp [scoreLoop]⟩
  | cons a rest ih =>
    intro pre nc np used hsol hu
    have hi : sol[pre.length]? = some a := by
      rw [hsol]; exact getElem?_append_length_cons pre a rest
    have hlt : pre.length < used.length := by
      rw [hu, hsol]; simp
    have hsol2 : sol = (pre ++ [a]) ++ rest := by simp [hsol]
    have hlen : (pre ++ [a]).length = pre.length + 1 := by simp
    obtain ⟨used1, h1⟩ := ih (pre ++ [a]) (nc + 1) np (used.set pre.length true) hsol2
      (by simp [hu])
    refine ⟨used1, ?_⟩
    simp only [List.length_cons, scoreLoop, hi, if_true, hlt]
    rw [← hlen, h1]
    simp only [Option.some.injEq, Prod.mk.injEq, and_true]
    omega

theorem nonwinning_step (game : Game) (g : GameRow) (o : Outcome)
    (hA : game.State = StateActive) (h : SubmitGuess game g = some o) (he : o.err = none)
    (hnw : o.result.NumCorrectPins ≠ game.Solution.length) :
    o.result.State = o.game.State ∧
    o.game.Guesses = game.Guesses ++ [g] ∧ o.game.maxGuesses = game.maxGuesses ∧
    o.game.State = (if (game.Guesses.length : Int) + 1 ≥ game.maxGuesses then StateLost
      else StateActive) := by
  obtain ⟨_, _, _, _, hgame, hst⟩ := SubmitGuess_accepted game g o h he
  have hf := updateState_frame { game with Guesses := game.Guesses ++ [g] }
    o.result.NumCorrectPins
  have hs := updateState_nonwinning { game with Guesses := game.Guesses ++ [g] }
    o.result.NumCorrectPins hnw
  rw [← hgame] at hf hs
  refine ⟨hst, hf.2.1, hf.2.2.2, ?_⟩
  rw [hs]
  simp [hA]

theorem nonWinningRun_cons (game : Game) (g : GameRow) (gs : List GameRow)
    (h : nonWinningRun game (g :: gs) = true) :
    ∃ o, SubmitGuess game g = some o ∧ o.err = none ∧
      o.result.NumCorrectPins ≠ game.Solution.length ∧ nonWinningRun o.game gs = true := by
  unfold nonWinningRun at h
  cases hs : SubmitGuess game g with
  | none => rw [hs] at h; simp at h
  | some o =>
    rw [hs] at h
    simp only [Bool.and_eq_true, decide_eq_true_eq, Option.isNone_iff_eq_none] at h
    exact ⟨o, rfl, h.1.1, h.1.2, h.2⟩

theorem nonWinningRun_run (gs : List GameRow) :
    ∀ (game : Game), game.State = StateActive →
      (game.Guesses.length : Int) < game.maxGuesses → nonWinningRun game gs = true →
      ∀ k, k ≤ gs.length → ∃ gk, SubmitGuesses game (gs.take k) = some gk ∧
        (game.Guesses.length : Int) + k ≤ game.maxGuesses ∧
        ((game.Guesses.length : Int) + k < game.maxGuesses → gk.State = StateActive) ∧
        ((game.Guesses.length : Int) + k = game.maxGuesses → gk.State = StateLost) := by
  induction gs with
  | nil =>
    intro game hA hn _ k hk
    have : k = 0 := by simpa using hk
    subst this
    refine ⟨game, by simp [SubmitGuesses], by simpa using le_of_lt hn, fun _ => hA, ?_⟩
    intro h; simp at h; omega
  | cons g gs ih =>
    intro game hA hn hrun k hk
    cases k with
    | zero =>
      refine ⟨game, by simp [SubmitGuesses], by simpa using le_of_lt hn, fun _ => hA, ?_⟩
      intro h; simp at h; omega
    | succ k =>
      obtain ⟨o, hs, he, hnw, hrest⟩ := nonWinningRun_cons game g gs hrun
      obtain ⟨_, hG, hM, hS⟩ := nonwinning_step game g o hA hs he hnw
      have hk2 : k ≤ gs.length := by simpa using hk
      have hlen : (o.game.Guesses.length : Int) = (game.Guesses.length : Int) + 1 := by
        rw [hG]; simp
      by_cases hlast : (game.Guesses.length : Int) + 1 ≥ game.maxGuesses
      · have hLost : o.game.State = StateLost := by rw [hS]; simp [hlast]
        have hk0 : k = 0 := by
          cases gs with
          | nil => simpa using hk2
          | cons g2 gs2 =>
            exfalso
            obtain ⟨o2, hs2, he2, _, _⟩ := nonWinningRun_cons o.game g2 gs2 hrest
            have hna : o.game.State ≠ StateActive := by rw [hLost]; decide
            rw [SubmitGuess_inactive o.game g2 hna] at hs2
            simp only [Option.some.injEq] at hs2
            rw [← hs2] at he2
            simp at he2
        subst hk0
        refine ⟨o.game, by simp [SubmitGuesses, hs], ?_, ?_, ?_⟩
        · push_cast; omega
        · intro h; push_cast at h; omega
        · intro _; exact hLost
      · have hAct : o.game.State = StateActive := by rw [hS]; simp [hlast]
        obtain ⟨gk, hrun2, hb, hact, hlost⟩ := ih o.game hAct (by rw [hlen, hM]; omega) hrest k hk2
        rw [hlen, hM] at hb hact hlost
        refine ⟨gk, by simp [SubmitGuesses, hs, hrun2], ?_, ?_, ?_⟩
        · push_cast; omega
        · intro h; apply hact; push_cast at h; omega
        · intro h; apply hlost; push_cast at h; omega

theorem scoreLoop_of_nodup (g sol : GameRow) (hs : sol.Nodup) (hl : g.length = sol.length) :
    scoreLoop g sol 0 sol.length 0 0 (List.replicate sol.length false)
      = some (exactCount g sol, misplacedCount sol [] g sol,
              sol.map (fun s => decide (s ∈ g))) := by
  have h := scoreLoop_nodup g sol hs g sol [] [] 0 0 rfl rfl rfl hl
  have hrep : sol.map (fun s => decide (s ∈ ([] : List Int))) = List.replicate sol.length false := by
    simp [List.eq_replicate_iff]
  rw [hrep, hl] at h
  simpa using h

theorem scoreLoop_exact (g sol : GameRow) :
    ∀ (grest srest gpre spre : List Int) (nc np : Nat) (used : List Bool),
      g = gpre ++ grest → sol = spre ++ srest → gpre.length = spre.length →
      grest.length = srest.length → used.length = sol.length →
      ∃ np1 used1, scoreLoop g sol gpre.length grest.length nc np used
        = some (nc + exactCount grest srest, np1, used1) ∧ used1.length = sol.length := by
  intro grest
  induction grest with
  | nil =>
    intro srest gpre spre nc np used _ _ _ hl hu
    cases srest with
    | nil => exact ⟨np, used, by simp [scoreLoop, exactCount], hu⟩
    | cons b srest => simp at hl
  | cons a grest ih =>
    intro srest gpre spre nc np used hg hsol hpre hl hu
    cases srest with
    | nil => simp at hl
    | cons b srest =>
      have hl2 : grest.length = srest.length := by simpa using hl
      have hgi : g[gpre.length]? = some a := by
        rw [hg]; exact getElem?_append_length_cons gpre a grest
      have hsi : sol[gpre.length]? = some b := by
        rw [hsol, hpre]; exact getElem?_append_length_cons spre b srest
      have hg2 : g = (gpre ++ [a]) ++ grest := by simp [hg]
      have hsol2 : sol = (spre ++ [b]) ++ srest := by simp [hsol]
      have hpre2 : (gpre ++ [a]).length = (spre ++ [b]).length := by simp [hpre]
      have hlen : (gpre ++ [a]).length = gpre.length + 1 := by simp
      have hrec := ih srest (gpre ++ [a]) (spre ++ [b])
      simp only [List.length_cons, scoreLoop, hgi, hsi]
      by_cases hab : a = b
      · have hlt : gpre.length < used.length := by
          rw [hu, hsol, hpre]; simp
        obtain ⟨np1, used1, h1, h2⟩ := hrec (nc + 1) np (used.set gpre.length true)
          hg2 hsol2 hpre2 hl2 (by simp [hu])
        refine ⟨np1, used1, ?_, h2⟩
        rw [if_pos hab, if_pos hlt, ← hlen, h1]
        simp [exactCount, hab, List.countP_cons, Nat.add_assoc, Nat.add_comm]
      · rw [if_neg hab, innerLoop_full g sol gpre.length a hgi np used hu.symm]
        obtain ⟨np1, used1, h1, h2⟩ := hrec nc
          (np + (sol.zip used).countP (fun p => decide (a = p.1) && !p.2))
          (List.zipWith (fun s b => b || decide (a = s)) sol used)
          hg2 hsol2 hpre2 hl2 (by simp [hu])
        refine ⟨np1, used1, ?_, h2⟩
        simp only []
        rw [← hlen, h1]
        simp [exactCount, hab, List.countP_cons]

theorem scoreLoop_start (g sol : GameRow) (hl : g.length = sol.length) :
    ∃ np used, scoreLoop g sol 0 sol.length 0 0 (List.replicate sol.length false)
      = some (exactCount g sol, np, used) := by
  obtain ⟨np, used, h, _⟩ := scoreLoop_exact g sol g sol [] [] 0 0
    (List.replicate sol.length false) rfl rfl rfl hl (by simp)
  rw [hl] at h
  exact ⟨np, used, by simpa using h⟩

theorem SubmitGuess_some (game : Game) (g : GameRow) : ∃ o, SubmitGuess game g = some o := by
  unfold SubmitGuess
  by_cases hA : game.State = StateActive
  · rw [if_neg (not_not.mpr hA)]
    by_cases hl : g.length = game.Solution.length
    · rw [if_neg (not_not.mpr hl)]
      have hsome := checkColors_eq g game.maxColors g.length 0 (by omega)
      cases hb : decide (∀ v ∈ g.drop 0, v < game.maxColors) with
      | false =>
        rw [hb] at hsome
        rw [hsome]
        exact ⟨_, rfl⟩
      | true =>
        rw [hb] at hsome
        obtain ⟨np, used, hsc⟩ := scoreLoop_start g game.Solution hl
        rw [hsome]
        simp only [hsc]
        exact ⟨_, rfl⟩
    · rw [if_pos hl]; exact ⟨_, rfl⟩
  · rw [if_pos hA]; exact ⟨_, rfl⟩

theorem SubmitGuess_error (game : Game) (g : GameRow) (o : Outcome)
    (h : SubmitGuess game g = some o) (he : o.err ≠ none) :
    o.game = game ∧ o.result = {} ∧
    (o.err = some GameError.ErrGameNotActive ∨ o.err = some GameError.ErrBadGuess) := by
  unfold SubmitGuess at h
  by_cases hA : game.State = StateActive
  · rw [if_neg (not_not.mpr hA)] at h
    by_cases hl : g.length = game.Solution.length
    · rw [if_neg (not_not.mpr hl)] at h
      cases hc : checkColors g game.maxColors 0 g.length with
      | none => rw [hc] at h; simp at h
      | some b =>
        rw [hc] at h
        cases b with
        | false =>
          simp only [Option.some.injEq] at h
          subst h
          exact ⟨rfl, rfl, Or.inr rfl⟩
        | true =>
          simp only at h
          cases hsc : scoreLoop g game.Solution 0 game.Solution.length 0 0
              (List.replicate game.Solution.length false) with
          | none => rw [hsc] at h; simp at h
          | some r =>
            obtain ⟨nc, np, used⟩ := r
            rw [hsc] at h
            simp only [Option.some.injEq] at h
            subst h
            exact absurd rfl he
    · rw [if_pos hl] at h
      simp only [Option.some.injEq] at h
      subst h
      exact ⟨rfl, rfl, Or.inr rfl⟩
  · rw [if_pos hA] at h
    simp only [Option.some.injEq] at h
    subst h
    exact ⟨rfl, rfl, Or.inl rfl⟩

theorem updateState_state (game : Game) (nc : Nat) :
    (updateState game nc).State = StateLost ∨ (updateState game nc).State = StateWin ∨
      (updateState game nc).State = game.State := by
  unfold updateState
  by_cases h1 : nc = game.Solution.length <;>
    by_cases h2 : (game.Guesses.length : Int) ≥ game.maxGuesses <;> simp [h1, h2]

theorem updateState_active (game : Game) (nc : Nat)
    (h : (updateState game nc).State = StateActive) :
    (game.Guesses.length : Int) < game.maxGuesses := by
  unfold updateState at h
  by_cases h1 : nc = game.Solution.length <;>
    by_cases h2 : (game.Guesses.length : Int) ≥ game.maxGuesses
  · simp [h1, h2, StateLost, StateActive] at h
  · omega
  · simp [h1, h2, StateLost, StateActive] at h
  · omega

theorem SubmitGuess_state_from_active (game : Game) (g : GameRow) (o : Outcome)
    (h : SubmitGuess game g = some o) (hA : game.State = StateActive) :
    o.game.State = StateActive ∨ o.game.State = StateWin ∨ o.game.State = StateLost := by
  by_cases he : o.err = none
  · obtain ⟨_, _, _, _, hgame, _⟩ := SubmitGuess_accepted game g o h he
    rcases updateState_state { game with Guesses := game.Guesses ++ [g] }
      o.result.NumCorrectPins with hs | hs | hs
    · rw [← hgame] at hs; exact Or.inr (Or.inr hs)
    · rw [← hgame] at hs; exact Or.inr (Or.inl hs)
    · rw [← hgame] at hs; exact Or.inl (hs.trans hA)
  · rw [(SubmitGuess_error game g o h he).1]
    exact Or.inl hA

theorem SubmitGuesses_inactive (gs : List GameRow) (game : Game)
    (h : game.State ≠ StateActive) : SubmitGuesses game gs = some game := by
  induction gs with
  | nil => rfl
  | cons g gs ih =>
    unfold SubmitGuesses
    rw [SubmitGuess_inactive game g h]
    exact ih

theorem SubmitGuesses_append (gs1 gs2 : List GameRow) :
    ∀ (game gm : Game), SubmitGuesses game gs1 = some gm →
      SubmitGuesses game (gs1 ++ gs2) = SubmitGuesses gm gs2 := by
  induction gs1 with
  | nil =>
    intro game gm h
    simp only [SubmitGuesses, Option.some.injEq] at h
    rw [h]; rfl
  | cons g gs1 ih =>
    intro game gm h
    rw [List.cons_append]
    simp only [SubmitGuesses] at h ⊢
    cases hs : SubmitGuess game g with
    | none => rw [hs] at h; simp at h
    | some o =>
      rw [hs] at h
      simp only at h ⊢
      exact ih o.game gm h

theorem historyBounded_step (game : Game) (g : GameRow) (o : Outcome)
    (h : SubmitGuess game g = some o) (hb : historyBounded game) :
    historyBounded o.game ∧ o.game.maxGuesses = game.maxGuesses := by
  by_cases he : o.err = none
  · obtain ⟨hA, _, _, _, hgame, _⟩ := SubmitGuess_accepted game g o h he
    have hf := updateState_frame { game with Guesses := game.Guesses ++ [g] }
      o.result.NumCorrectPins
    have hact := updateState_active { game with Guesses := game.Guesses ++ [g] }
      o.result.NumCorrectPins
    rw [← hgame] at hf hact
    have hG : o.game.Guesses = game.Guesses ++ [g] := hf.2.1
    have hM : o.game.maxGuesses = game.maxGuesses := hf.2.2.2
    have hact2 : o.game.State = StateActive →
        ((game.Guesses ++ [g]).length : Int) < game.maxGuesses := hact
    have hlt := hb.2 hA
    have hlen : (o.game.Guesses.length : Int) = (game.Guesses.length : Int) + 1 := by
      rw [hG]; simp
    refine ⟨⟨?_, ?_⟩, hM⟩
    · rw [hlen, hM]; omega
    · intro hs
      have := hact2 hs
      simp only [List.length_append, List.length_singleton, Nat.cast_add, Nat.cast_one] at this
      rw [hlen, hM]; exact this
  · rw [(SubmitGuess_error game g o h he).1]
    exact ⟨hb, rfl⟩

theorem historyBounded_run (gs : List GameRow) :
    ∀ (game : Game), historyBounded game →
      ∃ gk, SubmitGuesses game gs = some gk ∧ historyBounded gk ∧
        gk.maxGuesses = game.maxGuesses := by
  induction gs with
  | nil => intro game hb; exact ⟨game, rfl, hb, rfl⟩
  | cons g gs ih =>
    intro game hb
    obtain ⟨o, hs⟩ := SubmitGuess_some game g
    obtain ⟨hb2, hm⟩ := historyBounded_step game g o hs hb
    obtain ⟨gk, hrun, hbk, hmk⟩ := ih o.game hb2
    refine ⟨gk, ?_, hbk, hmk.trans hm⟩
    unfold SubmitGuesses
    rw [hs]
    exact hrun

theorem exact_add_misplaced_le (sol : GameRow) :
    ∀ (grest srest seen : List Int),
      exactCount grest srest + misplacedCount sol seen grest srest ≤ srest.length := by
  intro grest
  induction grest with
  | nil => intro srest seen; simp [exactCount, misplacedCount]
  | cons a gs ih =>
    intro srest seen
    cases srest with
    | nil => simp [exactCount, misplacedCount]
    | cons b ss =>
      have hrec := ih ss (seen ++ [a])
      have e1 : exactCount (a :: gs) (b :: ss) = (if a = b then 1 else 0) + exactCount gs ss := by
        by_cases hab : a = b <;> simp [exactCount, List.countP_cons, hab, Nat.add_comm]
      rw [e1]
      simp only [misplacedCount, List.length_cons]
      by_cases hab : a = b
      · subst hab
        simp only [if_true, ne_eq, not_true_eq_false, false_and, if_false]
        omega
      · simp only [hab, if_false]
        split <;> omega

theorem misplacedCount_nodup (sol : GameRow) :
    ∀ (grest srest seen : List Int), (seen ++ grest).Nodup →
      misplacedCount sol seen grest srest
        = (grest.zip srest).countP (fun p => decide (p.1 ≠ p.2 ∧ p.1 ∈ sol)) := by
  intro grest
  induction grest with
  | nil => intro srest seen _; simp [misplacedCount]
  | cons a gs ih =>
    intro srest seen hnd
    cases srest with
    | nil => simp [misplacedCount]
    | cons b ss =>
      have hnd2 : ((seen ++ [a]) ++ gs).Nodup := by simpa using hnd
      have hns : a ∉ seen := by
        intro h
        exact (List.nodup_append.mp hnd).2.2 h (List.mem_cons_self a gs)
      simp only [misplacedCount, ih ss (seen ++ [a]) hnd2, List.zip_cons_cons, List.countP_cons]
      by_cases hp : a ≠ b ∧ a ∈ sol
      · simp [hp, hns, Nat.add_comm]
      · have hp2 : ¬ (a ≠ b ∧ a ∈ sol ∧ a ∉ seen) := fun h => hp ⟨h.1, h.2.1⟩
        simp only [hp2, if_false, Nat.zero_add]
        simp [hp]

theorem take_succ_set {α : Type} (a : α) :
    ∀ (l : List α) (i : Nat), i < l.length → (l.set i a).take (i + 1) = l.take i ++ [a] := by
  intro l
  induction l with
  | nil => intro i hi; simp at hi
  | cons x l ih =>
    intro i hi
    cases i with
    | zero => simp
    | succ i =>
      have hi2 : i < l.length := by simpa using hi
      simp [ih i hi2]

theorem drawColor_some (used : List Bool) :
    ∀ (draws : List Nat) (c : Nat) (used1 : List Bool) (rest : List Nat),
      drawColor false used draws = some (c, used1, rest) →
      used[c]? = some false ∧ used1 = used.set c true := by
  intro draws
  induction draws with
  | nil => intro c used1 rest h; simp [drawColor] at h
  | cons n draws ih =>
    intro c used1 rest h
    unfold drawColor at h
    cases hu : used[n]? with
    | none => rw [hu] at h; simp at h
    | some u =>
      rw [hu] at h
      cases u with
      | false =>
        simp only [Bool.false_or, Bool.not_false, if_true, Option.some.injEq,
          Prod.mk.injEq] at h
        obtain ⟨h1, h2, _⟩ := h
        subst h1
        exact ⟨hu, h2.symm⟩
      | true =>
        simp only [Bool.false_or, Bool.not_true, Bool.false_eq_true, if_false] at h
        exact ih c used1 rest h

theorem fillSolution_some :
    ∀ (k i : Nat) (solution : List Int) (used : List Bool) (draws : List Nat) (r : List Int),
      fillSolution false i k solution used draws = some r →
      (solution.take i).Nodup →
      (∀ c : Nat, (c : Int) ∈ solution.take i → used[c]? = some true) →
      (∀ v ∈ solution.take i, 0 ≤ v ∧ v < (used.length : Int)) →
      r.length = solution.length ∧ (r.take (i + k)).Nodup ∧
        ∀ v ∈ r.take (i + k), 0 ≤ v ∧ v < (used.length : Int) := by
  intro k
  induction k with
  | zero =>
    intro i solution used draws r h hnd _ hv
    simp only [fillSolution, Option.some.injEq] at h
    subst h
    exact ⟨rfl, hnd, hv⟩
  | succ k ih =>
    intro i solution used draws r h hnd hu hv
    unfold fillSolution at h
    cases hd : drawColor false used draws with
    | none => rw [hd] at h; simp at h
    | some t =>
      obtain ⟨c, used1, rest⟩ := t
      rw [hd] at h
      simp only at h
      by_cases hi : i < solution.length
      · rw [if_pos hi] at h
        obtain ⟨hc, hused1⟩ := drawColor_some used draws c used1 rest hd
        have hclt : c < used.length := by
          by_contra hge
          rw [List.getElem?_eq_none (by omega)] at hc
          simp at hc
        have hlen1 : used1.length = used.length := by rw [hused1]; simp
        have htake := take_succ_set (c : Int) solution i hi
        have hnotin : (c : Int) ∉ solution.take i := by
          intro hm
          rw [hu c hm] at hc
          simp at hc
        have hnd2 : ((solution.set i (c : Int)).take (i + 1)).Nodup := by
          rw [htake]
          exact List.Nodup.append hnd (List.nodup_singleton _)
            (by
              intro x hx1 hx2
              rw [List.mem_singleton] at hx2
              exact hnotin (hx2 ▸ hx1))
        have hu2 : ∀ c2 : Nat, (c2 : Int) ∈ (solution.set i (c : Int)).take (i + 1) →
            used1[c2]? = some true := by
          intro c2 hm
          rw [htake, List.mem_append, List.mem_singleton] at hm
          rw [hused1]
          by_cases hcc : c = c2
          · subst hcc
            exact List.getElem?_set_self hclt
          · rw [List.getElem?_set_ne hcc]
            rcases hm with hm | hm
            · exact hu c2 hm
            · exact absurd (Int.ofNat.inj hm).symm hcc
        have hv2 : ∀ v ∈ (solution.set i (c : Int)).take (i + 1),
            0 ≤ v ∧ v < (used1.length : Int) := by
          intro v hm
          rw [htake, List.mem_append, List.mem_singleton] at hm
          rw [hlen1]
          rcases hm with hm | hm
          · exact hv v hm
          · rw [hm]; omega
        obtain ⟨r1, r2, r3⟩ := ih (i + 1) (solution.set i (c : Int)) used1 rest r h hnd2 hu2 hv2
        rw [hlen1] at r3
        have e : i + 1 + k = i + (k + 1) := by omega
        rw [e] at r2 r3
        exact ⟨by rw [r1]; simp, r2, r3⟩
      · rw [if_neg hi] at h
        simp at h

theorem NewGame_some (draws : List Nat) (game : Game) (h : NewGame draws = some game) :
    game.Solution.length = 4 ∧ game.Solution.Nodup ∧
    (∀ v ∈ game.Solution, 0 ≤ v ∧ v < 4) ∧
    game.Guesses = [] ∧ game.State = StateActive ∧ game.maxColors = 4 ∧
    game.maxGuesses = 8 := by
  unfold NewGame at h
  simp only at h
  cases hf : fillSolution false 0 4 (List.replicate 4 0) (List.replicate 4 false) draws with
  | none => rw [hf] at h; simp at h
  | some r =>
    rw [hf] at h
    simp only [Option.some.injEq] at h
    subst h
    obtain ⟨r1, r2, r3⟩ := fillSolution_some 4 0 (List.replicate 4 0) (List.replicate 4 false)
      draws r hf (by simp) (by simp) (by simp)
    have hlen : r.length = 4 := by simpa using r1
    have htake : r.take (0 + 4) = r := by
      rw [Nat.zero_add, ← hlen]; exact List.take_length r
    rw [htake] at r2 r3
    refine ⟨hlen, r2, ?_, rfl, rfl, rfl, rfl⟩
    intro v hm
    simpa using r3 v hm

theorem perm_of_nodup_range4 (sol : GameRow) (hl : sol.length = 4) (hnd : sol.Nodup)
    (hv : ∀ v ∈ sol, 0 ≤ v ∧ v < 4) : sol.Perm [0, 1, 2, 3] := by
  have hsub : sol ⊆ [0, 1, 2, 3] := by
    intro v hm
    obtain ⟨h0, h4⟩ := hv v hm
    have : v = 0 ∨ v = 1 ∨ v = 2 ∨ v = 3 := by omega
    rcases this with h | h | h | h <;> simp [h]
  exact (hnd.subperm hsub).perm_of_length_le (by simp [hl])

theorem drawColor_total (used : List Bool) :
    ∀ (draws : List Nat), (∀ d ∈ draws, d < used.length) →
      (∃ c ∈ draws, used[c]? = some false) →
      ∃ c rest, drawColor false used draws = some (c, used.set c true, rest) ∧
        used[c]? = some false ∧ (∀ d ∈ rest, d < used.length) ∧
        (∀ c2, c2 ≠ c → c2 ∈ draws → used[c2]? = some false → c2 ∈ rest) := by
  intro draws
  induction draws with
  | nil => intro _ hex; obtain ⟨c, hc, _⟩ := hex; simp at hc
  | cons n draws ih =>
    intro hlt hex
    have hn : n < used.length := hlt n (List.mem_cons_self n draws)
    have hlt2 : ∀ d ∈ draws, d < used.length := fun d hd => hlt d (List.mem_cons_of_mem n hd)
    unfold drawColor
    rw [List.getElem?_eq_getElem hn]
    cases hu : used[n] with
    | false =>
      refine ⟨n, draws, by simp, ?_, hlt2, ?_⟩
      · rw [List.getElem?_eq_getElem hn, hu]
      · intro c2 hne hm _
        rcases List.mem_cons.mp hm with h | h
        · exact absurd h hne
        · exact h
    | true =>
      have hun : used[n]? = some true := by rw [List.getElem?_eq_getElem hn, hu]
      have hex2 : ∃ c ∈ draws, used[c]? = some false := by
        obtain ⟨c, hc, hcu⟩ := hex
        rcases List.mem_cons.mp hc with h | h
        · rw [h, hun] at hcu; simp at hcu
        · exact ⟨c, h, hcu⟩
      obtain ⟨c, rest, h1, h2, h3, h4⟩ := ih hlt2 hex2
      refine ⟨c, rest, by simpa using h1, h2, h3, ?_⟩
      intro c2 hne hm hcu
      rcases List.mem_cons.mp hm with h | h
      · rw [h, hun] at hcu; simp at hcu
      · exact h4 c2 hne h hcu

theorem fillSolution_total :
    ∀ (k i : Nat) (solution : List Int) (used : List Bool) (draws : List Nat) (free : List Nat),
      i + k ≤ solution.length → (∀ d ∈ draws, d < used.length) → free.Nodup →
      k ≤ free.length → (∀ c ∈ free, used[c]? = some false ∧ c ∈ draws) →
      ∃ r, fillSolution false i k solution used draws = some r := by
  intro k
  induction k with
  | zero => intro i solution used draws free _ _ _ _ _; exact ⟨solution, rfl⟩
  | succ k ih =>
    intro i solution used draws free hik hlt hnd hlen hfree
    have hi : i < solution.length := by omega
    obtain ⟨c0, hc0⟩ : ∃ c0, c0 ∈ free := by
      cases free with
      | nil => simp at hlen
      | cons a l => exact ⟨a, List.mem_cons_self a l⟩
    obtain ⟨c, rest, h1, h2, h3, h4⟩ := drawColor_total used draws hlt
      ⟨c0, (hfree c0 hc0).2, (hfree c0 hc0).1⟩
    have hfree2 : ∀ c2 ∈ free.erase c, (used.set c true)[c2]? = some false ∧ c2 ∈ rest := by
      intro c2 hm
      have hmem := (List.Nodup.mem_erase_iff hnd).mp hm
      have hne : c2 ≠ c := hmem.1
      obtain ⟨hu, hd⟩ := hfree c2 hmem.2
      refine ⟨?_, h4 c2 hne hd hu⟩
      rw [List.getElem?_set_ne (fun h => hne h.symm)]
      exact hu
    have hlen2 : k ≤ (free.erase c).length := by
      rw [List.length_erase]
      split <;> omega
    obtain ⟨r, hr⟩ := ih (i + 1) (solution.set i (c : Int)) (used.set c true) rest
      (free.erase c) (by simp; omega) (by simpa using h3) (hnd.erase c) hlen2 hfree2
    refine ⟨r, ?_⟩
    unfold fillSolution
    rw [h1]
    simp only [hi, if_true]
    exact hr

theorem NewGame_finishes (draws : List Nat) (hlt : ∀ d ∈ draws, d < 4)
    (hall : ∀ c, c < 4 → c ∈ draws) : ∃ game, NewGame draws = some game := by
  obtain ⟨r, hr⟩ := fillSolution_total 4 0 (List.replicate 4 0) (List.replicate 4 false) draws
    [0, 1, 2, 3] (by simp) (by simpa using hlt) (by decide) (by simp)
    (by
      intro c hc
      have hc4 : c < 4 := by
        simp only [List.mem_cons, List.mem_singleton, List.not_mem_nil, or_false] at hc
        omega
      refine ⟨?_, hall c hc4⟩
      interval_cases c <;> rfl)
  refine ⟨⟨r, [], StateActive, 4, 8⟩, ?_⟩
  unfold NewGame
  simp only [hr]
  rfl

/-! ## The claims -/

/-- C1 (the code breaks it). On the Active game with solution `[0, 1]`, four
colours and eight guesses, the guess `[1, 1]` is accepted with one exact and one
misplaced pin, a total of 2, while the multiset intersection of guess and
solution has size 1: guess position 0 claims solution position 1 as a misplaced
match, and guess position 1 then counts that same solution peg as an exact
match, the exact branch not looking at its used marker. The mirrored solution
`[1, 0]` with the same guess is scored one exact and no misplaced pin, the
intersection size, so the total depends on the order of the positions. -/
theorem pins_sum_ne_multiset_inter :
    SubmitGuess ⟨[0, 1], [], StateActive, 4, 8⟩ [1, 1]
      = some ⟨⟨[0, 1], [[1, 1]], StateActive, 4, 8⟩, ⟨1, 1, StateActive⟩, none⟩ ∧
    multisetIntersectionSize [1, 1] [0, 1] = 1 ∧
    SubmitGuess ⟨[1, 0], [], StateActive, 4, 8⟩ [1, 1]
      = some ⟨⟨[1, 0], [[1, 1]], StateActive, 4, 8⟩, ⟨1, 0, StateActive⟩, none⟩ ∧
    multisetIntersectionSize [1, 1] [1, 0] = 1 := by
  refine ⟨by decide, by decide, by decide, by decide⟩

/-- C2 (the code breaks it). On the Active game with solution `[0, 1, 1]`, the
guess `[1, 1, 1]` is accepted with 2 exact and 2 misplaced pins: the total 4
exceeds the solution length 3. Guess position 0 claims both solution positions
1 and 2, because the inner loop goes on after its first match. -/
theorem pins_sum_exceeds_solution_length :
    SubmitGuess ⟨[0, 1, 1], [], StateActive, 4, 8⟩ [1, 1, 1]
      = some ⟨⟨[0, 1, 1], [[1, 1, 1]], StateActive, 4, 8⟩, ⟨2, 2, StateActive⟩, none⟩ ∧
    ¬ ((2 : Nat) + 2 ≤ ([0, 1, 1] : GameRow).length) := by
  refine ⟨by decide, by decide⟩

/-- C3 (the code breaks it). On the Active game with solution `[1, 0, 0]`, the
guess `[0, 2, 2]` is scored (0 exact, 2 misplaced) by `SubmitGuess`, while the
reference algorithm of spec section 4.2, which stops at the first unused match,
gives (0 exact, 1 misplaced). -/
theorem score_differs_from_reference :
    SubmitGuess ⟨[1, 0, 0], [], StateActive, 4, 8⟩ [0, 2, 2]
      = some ⟨⟨[1, 0, 0], [[0, 2, 2]], StateActive, 4, 8⟩, ⟨0, 2, StateActive⟩, none⟩ ∧
    referenceScore [0, 2, 2] [1, 0, 0] = (0, 1) := by
  refine ⟨by decide, by decide⟩

/-- C4 (the code breaks it). On the Active game with solution `[1, 2]`, an empty
history and `maxGuesses = 1`, the guess `[1, 2]` has exact-match count 2, the
solution length, and both the game state and the returned state are Lost: the
guess-count test runs after the win test and overwrites Won. -/
theorem win_on_last_guess_reports_lost :
    SubmitGuess ⟨[1, 2], [], StateActive, 4, 1⟩ [1, 2]
      = some ⟨⟨[1, 2], [[1, 2]], StateLost, 4, 1⟩, ⟨2, 0, StateLost⟩, none⟩ := by
  decide

/-- C5. For every game in state Active whose solution values all lie in
`[0, maxColors)`, submitting the solution as the guess is accepted and returns
`NumCorrectPins = len(Solution)` and `NumPartialPins = 0`. -/
theorem guess_equal_solution_all_exact (game : Game) (hA : game.State = StateActive)
    (hv : ∀ v ∈ game.Solution, 0 ≤ v ∧ v < game.maxColors) :
    ∃ o, SubmitGuess game game.Solution = some o ∧ o.err = none ∧
      o.result.NumCorrectPins = game.Solution.length ∧ o.result.NumPartialPins = 0 := by
  have hc : checkColors game.Solution game.maxColors 0 game.Solution.length = some true := by
    rw [checkColors_eq game.Solution game.maxColors game.Solution.length 0 (by omega)]
    simp only [List.drop_zero, Option.some.injEq, decide_eq_true_eq]
    exact fun v hm => (hv v hm).2
  obtain ⟨used, hsc⟩ := scoreLoop_self game.Solution game.Solution [] 0 0
    (List.replicate game.Solution.length false) rfl (by simp)
  simp only [List.length_nil, Nat.zero_add] at hsc
  have hS : SubmitGuess game game.Solution
      = some ⟨updateState { game with Guesses := game.Guesses ++ [game.Solution] }
          game.Solution.length,
        ⟨game.Solution.length, 0,
          (updateState { game with Guesses := game.Guesses ++ [game.Solution] }
            game.Solution.length).State⟩, none⟩ := by
    unfold SubmitGuess
    rw [if_neg (not_not.mpr hA), if_neg (not_not.mpr rfl), hc]
    simp only [hsc]
  exact ⟨_, hS, rfl, rfl, rfl⟩

/-- Witness for C5: the Active game with solution `[0, 1, 2, 3]` and four
colours. -/
theorem guess_equal_solution_all_exact_witness :
    ∃ o, SubmitGuess ⟨[0, 1, 2, 3], [], StateActive, 4, 8⟩ [0, 1, 2, 3] = some o ∧
      o.err = none ∧ o.result.NumCorrectPins = 4 ∧ o.result.NumPartialPins = 0 :=
  guess_equal_solution_all_exact ⟨[0, 1, 2, 3], [], StateActive, 4, 8⟩ rfl (by decide)

/-- C6. For every game in state Active with `n` recorded guesses, `n <
maxGuesses`, and every accepted guess that is not a win: the returned state is
the game state, it is Lost if `n + 1 = maxGuesses` and Active if `n + 1 <
maxGuesses`. Hence, from an Active game with empty history and `maxGuesses >
0`, along any run of accepted non-winning guesses, after `k` calls the run has
`k <= maxGuesses`, the state is Active while `k < maxGuesses` and Lost when
`k = maxGuesses`. -/
theorem nonwinning_guess_state :
    (∀ (game : Game) (g : GameRow) (o : Outcome), game.State = StateActive →
      (game.Guesses.length : Int) < game.maxGuesses →
      SubmitGuess game g = some o → o.err = none →
      o.result.NumCorrectPins ≠ game.Solution.length →
      o.result.State = o.game.State ∧
      ((game.Guesses.length : Int) + 1 = game.maxGuesses → o.game.State = StateLost) ∧
      ((game.Guesses.length : Int) + 1 < game.maxGuesses → o.game.State = StateActive)) ∧
    (∀ (game : Game) (gs : List GameRow), game.State = StateActive → game.Guesses = [] →
      0 < game.maxGuesses → nonWinningRun game gs = true →
      ∀ k, k ≤ gs.length → ∃ gk, SubmitGuesses game (gs.take k) = some gk ∧
        (k : Int) ≤ game.maxGuesses ∧
        ((k : Int) < game.maxGuesses → gk.State = StateActive) ∧
        ((k : Int) = game.maxGuesses → gk.State = StateLost)) := by
  constructor
  · intro game g o hA _ h he hnw
    obtain ⟨hst, _, _, hS⟩ := nonwinning_step game g o hA h he hnw
    refine ⟨hst, ?_, ?_⟩
    · intro hEq; rw [hS, if_pos (by omega)]
    · intro hLt; rw [hS, if_neg (by omega)]
  · intro game gs hA hG hM hrun k hk
    have hn : (game.Guesses.length : Int) < game.maxGuesses := by rw [hG]; simpa using hM
    obtain ⟨gk, h1, h2, h3, h4⟩ := nonWinningRun_run gs game hA hn hrun k hk
    rw [hG] at h2 h3 h4
    simp only [List.length_nil, Nat.cast_zero, zero_add] at h2 h3 h4
    exact ⟨gk, h1, h2, h3, h4⟩

/-- Witness for C6: solution `[0, 0]`, `maxGuesses = 2`; the first guess
`[1, 1]` leaves the game Active, and after the run of two such guesses it is
Lost. -/
theorem nonwinning_guess_state_witness :
    (StateActive = StateActive ∧ ((0 : Int) + 1 = 2 → StateActive = StateLost) ∧
      ((0 : Int) + 1 < 2 → StateActive = StateActive)) ∧
    (∃ gk, SubmitGuesses ⟨[0, 0], [], StateActive, 4, 2⟩ ([[1, 1], [1, 1]].take 2) = some gk ∧
      ((2 : Nat) : Int) ≤ 2 ∧ ((((2 : Nat) : Int) < 2) → gk.State = StateActive) ∧
      ((((2 : Nat) : Int) = 2) → gk.State = StateLost)) :=
  ⟨nonwinning_guess_state.1 ⟨[0, 0], [], StateActive, 4, 2⟩ [1, 1]
      ⟨⟨[0, 0], [[1, 1]], StateActive, 4, 2⟩, ⟨0, 0, StateActive⟩, none⟩
      rfl (by decide) (by decide) rfl (by decide),
    nonwinning_guess_state.2 ⟨[0, 0], [], StateActive, 4, 2⟩ [[1, 1], [1, 1]]
      rfl rfl (by decide) (by decide) 2 (by decide)⟩

/-- C7. For every game whose state is Won or Lost and every guess, well-formed
or not, `SubmitGuess` returns the error `ErrGameNotActive` and the guess
history is unchanged. -/
theorem terminal_game_rejects_guess (game : Game) (g : GameRow)
    (hT : game.State = StateWin ∨ game.State = StateLost) :
    ∃ o, SubmitGuess game g = some o ∧ o.err = some GameError.ErrGameNotActive ∧
      o.game.Guesses = game.Guesses := by
  have hna : game.State ≠ StateActive := by
    rcases hT with h | h <;> rw [h] <;> decide
  exact ⟨_, SubmitGuess_inactive game g hna, rfl, rfl⟩

/-- Witness for C7: a Lost game with solution `[0, 0]` and the guess `[1, 1]`. -/
theorem terminal_game_rejects_guess_witness :
    ∃ o, SubmitGuess ⟨[0, 0], [[1, 1], [1, 1]], StateLost, 4, 2⟩ [1, 1] = some o ∧
      o.err = some GameError.ErrGameNotActive ∧ o.game.Guesses = [[1, 1], [1, 1]] :=
  terminal_game_rejects_guess ⟨[0, 0], [[1, 1], [1, 1]], StateLost, 4, 2⟩ [1, 1] (Or.inr rfl)

/-- C8 (as stated, refuted). On the Won game with solution `[0, 0]`, the guess
`[1]`, whose length differs from the solution length, fails with
`ErrGameNotActive`, not with `ErrBadGuess`. -/
theorem wrong_length_on_won_game_not_bad_guess :
    SubmitGuess ⟨[0, 0], [], StateWin, 4, 2⟩ [1]
      = some ⟨⟨[0, 0], [], StateWin, 4, 2⟩, ⟨0, 0, StateActive⟩,
          some GameError.ErrGameNotActive⟩ ∧
    GameError.ErrGameNotActive ≠ GameError.ErrBadGuess := by
  refine ⟨by decide, by decide⟩

/-- C8 (amended). For every guess whose length differs from `len(Solution)`:
on a game in state Active `SubmitGuess` fails with `ErrBadGuess`, and on a game
in state Won or Lost it fails with `ErrGameNotActive`, the state test being
made first. -/
theorem wrong_length_error_by_state (game : Game) (g : GameRow)
    (hl : g.length ≠ game.Solution.length) :
    (game.State = StateActive →
      ∃ o, SubmitGuess game g = some o ∧ o.err = some GameError.ErrBadGuess) ∧
    (game.State = StateWin ∨ game.State = StateLost →
      ∃ o, SubmitGuess game g = some o ∧ o.err = some GameError.ErrGameNotActive) := by
  constructor
  · intro hA
    exact ⟨_, SubmitGuess_bad_length game g hA hl, rfl⟩
  · intro hT
    have hna : game.State ≠ StateActive := by
      rcases hT with h | h <;> rw [h] <;> decide
    exact ⟨_, SubmitGuess_inactive game g hna, rfl⟩

/-- Witness for C8 (amended): the guess `[1, 2, 3]` against the solution
`[1, 2]`, on an Active game. -/
theorem wrong_length_error_by_state_witness :
    ∃ o, SubmitGuess ⟨[1, 2], [], StateActive, 4, 8⟩ [1, 2, 3] = some o ∧
      o.err = some GameError.ErrBadGuess :=
  (wrong_length_error_by_state ⟨[1, 2], [], StateActive, 4, 8⟩ [1, 2, 3] (by decide)).1 rfl

/-- C9 (the code breaks it). On the Active game with solution `[1, 2]` and four
colours, the guess `[-1, 0]`, of the right length and holding a negative value,
is accepted (no error), scored and recorded in the guess history: the
validation loop tests only `g[i] >= maxColors`. -/
theorem negative_value_accepted :
    SubmitGuess ⟨[1, 2], [], StateActive, 4, 8⟩ [-1, 0]
      = some ⟨⟨[1, 2], [[-1, 0]], StateActive, 4, 8⟩, ⟨0, 0, StateActive⟩, none⟩ := by
  decide

/-- C10. For every game in state Active and every guess that contains at least
one value `>= maxColors`, whatever its length, `SubmitGuess` fails with the
error `ErrBadGuess`. -/
theorem value_at_least_maxColors_rejected (game : Game) (g : GameRow)
    (hA : game.State = StateActive) (hv : ∃ v ∈ g, v ≥ game.maxColors) :
    ∃ o, SubmitGuess game g = some o ∧ o.err = some GameError.ErrBadGuess := by
  by_cases hl : g.length = game.Solution.length
  · exact ⟨_, SubmitGuess_bad_color game g hA hl hv, rfl⟩
  · exact ⟨_, SubmitGuess_bad_length game g hA hl, rfl⟩

/-- Witness for C10: the guess `[1, 4]` against the solution `[1, 2]` with four
colours. -/
theorem value_at_least_maxColors_rejected_witness :
    ∃ o, SubmitGuess ⟨[1, 2], [], StateActive, 4, 8⟩ [1, 4] = some o ∧
      o.err = some GameError.ErrBadGuess :=
  value_at_least_maxColors_rejected ⟨[1, 2], [], StateActive, 4, 8⟩ [1, 4] rfl
    ⟨4, by decide, by decide⟩

/-- C11. Error atomicity: for every game and every guess, if `SubmitGuess`
returns an error, that error is `ErrGameNotActive` or `ErrBadGuess` and the
game's Solution, Guesses, State, maxColors and maxGuesses after the call are
identical to their values before it. -/
theorem error_leaves_game_unchanged (game : Game) (g : GameRow) (o : Outcome)
    (h : SubmitGuess game g = some o) (he : o.err ≠ none) :
    (o.err = some GameError.ErrGameNotActive ∨ o.err = some GameError.ErrBadGuess) ∧
    o.game.Solution = game.Solution ∧ o.game.Guesses = game.Guesses ∧
    o.game.State = game.State ∧ o.game.maxColors = game.maxColors ∧
    o.game.maxGuesses = game.maxGuesses := by
  obtain ⟨hg, _, herr⟩ := SubmitGuess_error game g o h he
  rw [hg]
  exact ⟨herr, rfl, rfl, rfl, rfl, rfl⟩

/-- Witness for C11: the guess `[1, 4]` against the solution `[1, 2]` with four
colours, after one recorded guess. -/
theorem error_leaves_game_unchanged_witness :
    (some GameError.ErrBadGuess = some GameError.ErrGameNotActive ∨
      some GameError.ErrBadGuess = some GameError.ErrBadGuess) ∧
    ([1, 2] : GameRow) = [1, 2] ∧ ([[3, 0]] : List GameRow) = [[3, 0]] ∧
    StateActive = StateActive ∧ (4 : Int) = 4 ∧ (8 : Int) = 8 :=
  error_leaves_game_unchanged ⟨[1, 2], [[3, 0]], StateActive, 4, 8⟩ [1, 4]
    ⟨⟨[1, 2], [[3, 0]], StateActive, 4, 8⟩, {}, some GameError.ErrBadGuess⟩
    (by decide) (by decide)

/-- C12. For every game and every guess `g` that `SubmitGuess` accepts, the
guess history after the call is the history before it with `g` appended once at
the end, its length grows by exactly 1, and Solution, maxColors and maxGuesses
are unchanged. -/
theorem accepted_guess_appended_once (game : Game) (g : GameRow) (o : Outcome)
    (h : SubmitGuess game g = some o) (he : o.err = none) :
    o.game.Guesses = game.Guesses ++ [g] ∧
    o.game.Guesses.length = game.Guesses.length + 1 ∧
    o.game.Solution = game.Solution ∧ o.game.maxColors = game.maxColors ∧
    o.game.maxGuesses = game.maxGuesses := by
  obtain ⟨_, _, _, _, hgame, _⟩ := SubmitGuess_accepted game g o h he
  have hf := updateState_frame { game with Guesses := game.Guesses ++ [g] }
    o.result.NumCorrectPins
  rw [← hgame] at hf
  refine ⟨hf.2.1, ?_, hf.1, hf.2.2.1, hf.2.2.2⟩
  rw [hf.2.1]
  simp

/-- Witness for C12: the guess `[2, 1]` against the solution `[1, 2]`, after one
recorded guess. -/
theorem accepted_guess_appended_once_witness :
    ([[3, 0], [2, 1]] : List GameRow) = [[3, 0]] ++ [[2, 1]] ∧
    ([[3, 0], [2, 1]] : List GameRow).length = ([[3, 0]] : List GameRow).length + 1 ∧
    ([1, 2] : GameRow) = [1, 2] ∧ (4 : Int) = 4 ∧ (8 : Int) = 8 :=
  accepted_guess_appended_once ⟨[1, 2], [[3, 0]], StateActive, 4, 8⟩ [2, 1]
    ⟨⟨[1, 2], [[3, 0], [2, 1]], StateActive, 4, 8⟩, ⟨0, 2, StateActive⟩, none⟩
    (by decide) rfl

/-- C13. For every game in state Active and every accepted guess,
`NumCorrectPins` equals the number of positions `i` with
`guess[i] == Solution[i]`. -/
theorem correct_pins_count_equal_positions (game : Game) (g : GameRow) (o : Outcome)
    (h : SubmitGuess game g = some o) (he : o.err = none) :
    o.result.NumCorrectPins = exactCount g game.Solution := by
  obtain ⟨_, hl, _, ⟨used, hsc⟩, _, _⟩ := SubmitGuess_accepted game g o h he
  obtain ⟨np, used2, hsc2⟩ := scoreLoop_start g game.Solution hl
  rw [hsc2] at hsc
  simp only [Option.some.injEq, Prod.mk.injEq] at hsc
  exact hsc.1.symm

/-- Witness for C13: solution `[0, 0, 2, 3]`, guess `[1, 0, 0, 2]`, one position
in common. -/
theorem correct_pins_count_equal_positions_witness :
    (1 : Nat) = exactCount [1, 0, 0, 2] [0, 0, 2, 3] :=
  correct_pins_count_equal_positions ⟨[0, 0, 2, 3], [], StateActive, 4, 8⟩ [1, 0, 0, 2]
    ⟨⟨[0, 0, 2, 3], [[1, 0, 0, 2]], StateActive, 4, 8⟩, ⟨1, 2, StateActive⟩, none⟩
    (by decide) rfl

/-- C14. State transitions are monotonic. A single call on an Active game
leaves the state Active, Won or Lost; a single call on a game that is not
Active (Won or Lost) leaves its state and its guess history as they were. Over
sequences: once a run of calls has reached a game that is Won or Lost, every
longer run ends in that same state with that same guess history. -/
theorem state_transitions_monotonic :
    (∀ (game : Game) (g : GameRow) (o : Outcome), SubmitGuess game g = some o →
      (game.State = StateActive →
        o.game.State = StateActive ∨ o.game.State = StateWin ∨ o.game.State = StateLost) ∧
      (game.State ≠ StateActive →
        o.game.State = game.State ∧ o.game.Guesses = game.Guesses)) ∧
    (∀ (game gm : Game) (gs1 gs2 : List GameRow), SubmitGuesses game gs1 = some gm →
      gm.State = StateWin ∨ gm.State = StateLost →
      ∃ gk, SubmitGuesses game (gs1 ++ gs2) = some gk ∧ gk.State = gm.State ∧
        gk.Guesses = gm.Guesses) := by
  constructor
  · intro game g o h
    refine ⟨SubmitGuess_state_from_active game g o h, ?_⟩
    intro hna
    rw [SubmitGuess_inactive game g hna] at h
    simp only [Option.some.injEq] at h
    rw [← h]
    exact ⟨rfl, rfl⟩
  · intro game gm gs1 gs2 h hT
    have hna : gm.State ≠ StateActive := by
      rcases hT with h1 | h1 <;> rw [h1] <;> decide
    refine ⟨gm, ?_, rfl, rfl⟩
    rw [SubmitGuesses_append gs1 gs2 game gm h]
    exact SubmitGuesses_inactive gs2 gm hna

/-- Witness for C14: solution `[0, 0]`, `maxGuesses = 2`; one guess keeps the
game Active, two guesses `[1, 1]` make it Lost, and two more calls leave the
state and the history as they are. -/
theorem state_transitions_monotonic_witness :
    (StateActive = StateActive ∨ StateActive = StateWin ∨ StateActive = StateLost) ∧
    (∃ gk, SubmitGuesses ⟨[0, 0], [], StateActive, 4, 2⟩
        ([[1, 1], [1, 1]] ++ [[0, 0], [1, 1]]) = some gk ∧
      gk.State = StateLost ∧ gk.Guesses = [[1, 1], [1, 1]]) :=
  ⟨(state_transitions_monotonic.1 ⟨[0, 0], [], StateActive, 4, 2⟩ [1, 1]
      ⟨⟨[0, 0], [[1, 1]], StateActive, 4, 2⟩, ⟨0, 0, StateActive⟩, none⟩ (by decide)).1 rfl,
    state_transitions_monotonic.2 ⟨[0, 0], [], StateActive, 4, 2⟩
      ⟨[0, 0], [[1, 1], [1, 1]], StateLost, 4, 2⟩ [[1, 1], [1, 1]] [[0, 0], [1, 1]]
      (by decide) (Or.inr rfl)⟩

/-- C15. With the random source modelled as an injected sequence of draws: for
every draw sequence on which the generation loop of `NewGame` finishes, the
returned game has a Solution of length 4 whose values all lie in `[0, 4)` and
are pairwise distinct, so a permutation of `0, 1, 2, 3`, an empty guess history,
state Active, `maxColors = 4` and `maxGuesses = 8`. -/
theorem newGame_solution_is_permutation (draws : List Nat) (game : Game)
    (h : NewGame draws = some game) :
    game.Solution.length = 4 ∧ (∀ v ∈ game.Solution, 0 ≤ v ∧ v < 4) ∧
    game.Solution.Nodup ∧ game.Solution.Perm [0, 1, 2, 3] ∧
    game.Guesses = [] ∧ game.State = StateActive ∧ game.maxColors = 4 ∧
    game.maxGuesses = 8 := by
  obtain ⟨hl, hnd, hv, hG, hS, hC, hM⟩ := NewGame_some draws game h
  exact ⟨hl, hv, hnd, perm_of_nodup_range4 game.Solution hl hnd hv, hG, hS, hC, hM⟩

/-- Witness for C15: the draws `2, 2, 0, 3, 0, 1`, of which the second `2` and
the second `0` are rejected, give the solution `[2, 0, 3, 1]`. -/
theorem newGame_solution_is_permutation_witness :
    ([2, 0, 3, 1] : GameRow).length = 4 ∧ (∀ v ∈ ([2, 0, 3, 1] : GameRow), 0 ≤ v ∧ v < 4) ∧
    ([2, 0, 3, 1] : GameRow).Nodup ∧ ([2, 0, 3, 1] : GameRow).Perm [0, 1, 2, 3] ∧
    ([] : List GameRow) = [] ∧ StateActive = StateActive ∧ (4 : Int) = 4 ∧ (8 : Int) = 8 :=
  newGame_solution_is_permutation [2, 2, 0, 3, 0, 1] ⟨[2, 0, 3, 1], [], StateActive, 4, 8⟩
    (by decide)

/-- C16. `SubmitGuess` never indexes out of bounds: for every game and every
guess, of any length, values and state, no slice access of the call is out of
range, so the call returns, with a nil error or with one of the two errors. -/
theorem submitGuess_never_faults (game : Game) (g : GameRow) :
    ∃ o, SubmitGuess game g = some o ∧
      (o.err = none ∨ o.err = some GameError.ErrGameNotActive ∨
        o.err = some GameError.ErrBadGuess) := by
  obtain ⟨o, h⟩ := SubmitGuess_some game g
  refine ⟨o, h, ?_⟩
  by_cases he : o.err = none
  · exact Or.inl he
  · exact Or.inr (SubmitGuess_error game g o h he).2.2

/-- C17. Whenever `SubmitGuess` returns an error, the `GuessResult` it returns
is the zero value: `NumCorrectPins = 0`, `NumPartialPins = 0` and `State` is
`StateActive`, the zero `GameState`; this for every game and guess, also when
the game itself is Won or Lost. -/
theorem error_result_is_zero_value (game : Game) (g : GameRow) (o : Outcome)
    (h : SubmitGuess game g = some o) (he : o.err ≠ none) :
    o.result.NumCorrectPins = 0 ∧ o.result.NumPartialPins = 0 ∧
    o.result.State = StateActive ∧ StateActive = 0 := by
  obtain ⟨_, hr, _⟩ := SubmitGuess_error game g o h he
  rw [hr]
  exact ⟨rfl, rfl, rfl, rfl⟩

/-- Witness for C17: a Lost game; the returned state is Active although the
game is Lost. -/
theorem error_result_is_zero_value_witness :
    (0 : Nat) = 0 ∧ (0 : Nat) = 0 ∧ (0 : GameState) = StateActive ∧ StateActive = 0 :=
  error_result_is_zero_value ⟨[0, 0], [[1, 1], [1, 1]], StateLost, 4, 2⟩ [1, 1]
    ⟨⟨[0, 0], [[1, 1], [1, 1]], StateLost, 4, 2⟩, {}, some GameError.ErrGameNotActive⟩
    (by decide) (by decide)

/-- C18. For every game in state Active whose Solution has pairwise distinct
values and every accepted guess, each guess position contributes at most one
pin, so `NumCorrectPins + NumPartialPins <= len(Solution)`. -/
theorem pins_sum_le_length_of_nodup (game : Game) (g : GameRow) (o : Outcome)
    (h : SubmitGuess game g = some o) (he : o.err = none) (hs : game.Solution.Nodup) :
    o.result.NumCorrectPins + o.result.NumPartialPins ≤ game.Solution.length := by
  obtain ⟨_, hl, _, ⟨used, hsc⟩, _, _⟩ := SubmitGuess_accepted game g o h he
  rw [scoreLoop_of_nodup g game.Solution hs hl] at hsc
  simp only [Option.some.injEq, Prod.mk.injEq] at hsc
  rw [← hsc.1, ← hsc.2.1]
  exact exact_add_misplaced_le game.Solution g game.Solution []

/-- Witness for C18: solution `[0, 1, 2, 3]`, guess `[1, 1, 1, 1]`, scored one
exact and one misplaced pin. -/
theorem pins_sum_le_length_of_nodup_witness :
    (1 : Nat) + 1 ≤ ([0, 1, 2, 3] : GameRow).length :=
  pins_sum_le_length_of_nodup ⟨[0, 1, 2, 3], [], StateActive, 4, 8⟩ [1, 1, 1, 1]
    ⟨⟨[0, 1, 2, 3], [[1, 1, 1, 1]], StateActive, 4, 8⟩, ⟨1, 1, StateActive⟩, none⟩
    (by decide) rfl (by decide)

/-- C19. For every game in state Active whose Solution has pairwise distinct
values and every accepted guess whose values are also pairwise distinct,
`NumPartialPins` equals the number of positions `i` with
`guess[i] != Solution[i]` and `guess[i]` occurring somewhere in Solution, and
`NumCorrectPins + NumPartialPins` equals the number of colours common to guess
and solution. -/
theorem standard_scoring_of_nodup (game : Game) (g : GameRow) (o : Outcome)
    (h : SubmitGuess game g = some o) (he : o.err = none)
    (hs : game.Solution.Nodup) (hg : g.Nodup) :
    o.result.NumPartialPins = misplacedPositions g game.Solution ∧
    o.result.NumCorrectPins + o.result.NumPartialPins = commonColours g game.Solution := by
  obtain ⟨_, hl, _, ⟨used, hsc⟩, _, _⟩ := SubmitGuess_accepted game g o h he
  rw [scoreLoop_of_nodup g game.Solution hs hl] at hsc
  simp only [Option.some.injEq, Prod.mk.injEq] at hsc
  rw [← hsc.1, ← hsc.2.1]
  constructor
  · exact misplacedCount_nodup game.Solution g game.Solution [] (by simpa using hg)
  · rw [exact_add_misplaced game.Solution g game.Solution [] (by simpa using hg) hl
      (fun _ hb => hb)]
    unfold commonColours
    rw [hg.dedup, List.countP_eq_length_filter]

/-- Witness for C19: solution `[0, 1, 2, 3]`, guess `[1, 0, 2, 3]`, scored two
exact and two misplaced pins. -/
theorem standard_scoring_of_nodup_witness :
    (2 : Nat) = misplacedPositions [1, 0, 2, 3] [0, 1, 2, 3] ∧
    (2 : Nat) + 2 = commonColours [1, 0, 2, 3] [0, 1, 2, 3] :=
  standard_scoring_of_nodup ⟨[0, 1, 2, 3], [], StateActive, 4, 8⟩ [1, 0, 2, 3]
    ⟨⟨[0, 1, 2, 3], [[1, 0, 2, 3]], StateActive, 4, 8⟩, ⟨2, 2, StateActive⟩, none⟩
    (by decide) rfl (by decide) (by decide)

/-- C20. Reachable-state invariant: starting from a game with state Active,
empty guess history and `maxGuesses >= 1`, any finite sequence of `SubmitGuess`
calls, accepted or rejected, runs to its end and leaves `maxGuesses` as it was,
the guess history length at most `maxGuesses`, and, whenever the state is
Active, the history length strictly less than `maxGuesses`. (The proof does not
use that the starting state is Active, so the hypothesis is left out.) -/
theorem history_length_bounded (game : Game) (gs : List GameRow)
    (hG : game.Guesses = []) (hM : 1 ≤ game.maxGuesses) :
    ∃ gk, SubmitGuesses game gs = some gk ∧ gk.maxGuesses = game.maxGuesses ∧
      (gk.Guesses.length : Int) ≤ gk.maxGuesses ∧
      (gk.State = StateActive → (gk.Guesses.length : Int) < gk.maxGuesses) := by
  have hb : historyBounded game := by
    unfold historyBounded
    rw [hG]
    simp only [List.length_nil, Nat.cast_zero]
    exact ⟨by omega, fun _ => by omega⟩
  obtain ⟨gk, hrun, hbk, hmk⟩ := historyBounded_run gs game hb
  exact ⟨gk, hrun, hmk, hbk.1, hbk.2⟩

/-- Witness for C20: solution `[0, 0]`, `maxGuesses = 2`, and four calls of
which one is rejected for its length and the last for the game being Lost. -/
theorem history_length_bounded_witness :
    ∃ gk, SubmitGuesses ⟨[0, 0], [], StateActive, 4, 2⟩ [[1, 1], [1], [1, 0], [0, 0]]
        = some gk ∧ gk.maxGuesses = 2 ∧
      (gk.Guesses.length : Int) ≤ gk.maxGuesses ∧
      (gk.State = StateActive → (gk.Guesses.length : Int) < gk.maxGuesses) :=
  history_length_bounded ⟨[0, 0], [], StateActive, 4, 2⟩ [[1, 1], [1], [1, 0], [0, 0]]
    rfl (by decide)

end Mastermind
